import Mathlib

/-!
Verification of the SuperH RzIL lifter (`librz/analysis/arch/sh/sh_il.c`) and the
RzIL register-binding / sync engine (`rz_il_reg.c` part of the same translation unit).

The C functions build RzIL expression/effect trees over a 32-bit machine.  Pure
computations are embedded as Lean functions on `Nat` (with explicit `% 2 ^ w`
where the machine wraps); the IL-building helpers that the structural claims are
about (operand resolver, LDC generator, register access) are embedded as
syntactic AST builders mirroring the constructors the C code calls.
-/

namespace SH

/-! ## Status-register codec (sh_il_get_status_reg / sh_il_set_status_reg)

The lifter stores each status-register field in its own IL variable
(`sh_global_registers` lists `SH_SR_T, SH_SR_S, SH_SR_I, SH_SR_I, SH_SR_Q,
SH_SR_M, SH_SR_F, SH_SR_B, SH_SR_R, SH_SR_D`; the `SH_SR_I` entry is listed
twice, so there are nine distinct variables).  All of them are boolean IL
variables: `sh_il_get_status_reg_bit` renders such a variable as the 32-bit
value `ITE(VARG(bit), 1, 0)`. -/

/-- The nine distinct status-register flag variables of the lifter. -/
structure SRFlags where
  t : Bool
  s : Bool
  i : Bool
  q : Bool
  m : Bool
  f : Bool
  b : Bool
  r : Bool
  d : Bool

/-- Denotation of `sh_il_get_status_reg_bit`: `ITE(VARG(bit), SH_TRUE, SH_FALSE)`. -/
def srBit (b : Bool) : Nat := if b then 1 else 0

/-- Denotation of `sh_il_get_status_reg` (sh_il.c:79-100): accumulate the flag
bits into a 32-bit word by shift-and-or, in the source's exact order
(D, R, B, F, M, Q, I, S, T with shifts 1,1,13,6,1,4,3,1). -/
def sh_il_get_status_reg (fl : SRFlags) : Nat :=
  let val : Nat := 0
  let val := srBit fl.d ||| val
  let val := val <<< 1
  let val := srBit fl.r ||| val
  let val := val <<< 1
  let val := srBit fl.b ||| val
  let val := val <<< 13
  let val := srBit fl.f ||| val
  let val := val <<< 6
  let val := srBit fl.m ||| val
  let val := val <<< 1
  let val := srBit fl.q ||| val
  let val := val <<< 4
  let val := srBit fl.i ||| val
  let val := val <<< 3
  let val := srBit fl.s ||| val
  let val := val <<< 1
  srBit fl.t ||| val

/-- Denotation of `sh_il_set_status_reg` (sh_il.c:102-122): extract each flag with
`NON_ZERO(LOGAND(mask, val))` while shifting `val` right, in the source's exact
order (T, S, I, Q, M, F, B, R, D with shifts 1,3,4,1,6,13,1,1; the I field is
extracted with mask `0xf`). -/
def sh_il_set_status_reg (val : Nat) : SRFlags :=
  let t := (0x1 &&& val) != 0
  let val := val >>> 1
  let s := (0x1 &&& val) != 0
  let val := val >>> 3
  let i := (0xf &&& val) != 0
  let val := val >>> 4
  let q := (0x1 &&& val) != 0
  let val := val >>> 1
  let m := (0x1 &&& val) != 0
  let val := val >>> 6
  let f := (0x1 &&& val) != 0
  let val := val >>> 13
  let b := (0x1 &&& val) != 0
  let val := val >>> 1
  let r := (0x1 &&& val) != 0
  let val := val >>> 1
  let d := (0x1 &&& val) != 0
  ⟨t, s, i, q, m, f, b, r, d⟩

/-- Closed form of the packer: each boolean flag contributes its fixed bit
position (T:0, S:1, I:4, Q:8, M:9, F:15, B:28, R:29, D:30). -/
theorem get_status_reg_closed (fl : SRFlags) :
    sh_il_get_status_reg fl =
      srBit fl.t + 2 * srBit fl.s + 16 * srBit fl.i + 256 * srBit fl.q
        + 512 * srBit fl.m + 32768 * srBit fl.f + 2 ^ 28 * srBit fl.b
        + 2 ^ 29 * srBit fl.r + 2 ^ 30 * srBit fl.d := by
  rcases fl with ⟨t, s, i, q, m, f, b, r, d⟩
  cases t <;> cases s <;> cases i <;> cases q <;> cases m <;> cases f <;> cases b <;>
    cases r <;> cases d <;> rfl

theorem srBit_and_one (x : Nat) : srBit ((0x1 &&& x) != 0) = x % 2 := by
  rw [Nat.and_comm, Nat.and_one_is_mod]
  unfold srBit
  split <;> rename_i h <;> simp only [bne_iff_ne, ne_eq, bne_eq_false_iff_eq] at h <;> omega

theorem srBit_and_mask (x : Nat) :
    srBit ((0xf &&& x) != 0) = if x % 2 ^ 4 = 0 then 0 else 1 := by
  rw [Nat.and_comm]
  have h15 : (0xf : Nat) = 2 ^ 4 - 1 := rfl
  rw [h15, Nat.and_pow_two_sub_one_eq_mod]
  unfold srBit
  rcases Nat.eq_zero_or_pos (x % 2 ^ 4) with h | h <;> simp [h]

theorem srBit_mod_two (x : Nat) : srBit (x % 2 == 1) = x % 2 := by
  unfold srBit
  rcases Nat.mod_two_eq_zero_or_one x with h | h <;> simp [h]

/-- C1 (amended): re-packing after unpacking reproduces the single-bit flags at
their defined positions 0, 1, 8, 9, 15, 28, 29, 30, but collapses the 4-bit
interrupt-mask field (bits 4-7) to a single bit at position 4 that records
only whether the field was non-zero; every other position is zero. -/
theorem c1_status_roundtrip (w : Nat) :
    sh_il_get_status_reg (sh_il_set_status_reg w) =
      w % 2 + 2 * ((w >>> 1) % 2) + 16 * (if (w >>> 4) % 2 ^ 4 = 0 then 0 else 1)
        + 256 * ((w >>> 8) % 2) + 512 * ((w >>> 9) % 2) + 32768 * ((w >>> 15) % 2)
        + 2 ^ 28 * ((w >>> 28) % 2) + 2 ^ 29 * ((w >>> 29) % 2)
        + 2 ^ 30 * ((w >>> 30) % 2) := by
  rw [get_status_reg_closed]
  simp only [sh_il_set_status_reg, ← Nat.shiftRight_add]
  norm_num [srBit_and_one, srBit_and_mask, srBit_mod_two]

/-- C1 (counterexample): the original claim asserts the round trip reproduces
the word on the whole 4-bit interrupt-mask field at bits 4-7.  For the word
`0x20` (only bit 5 of the mask set) the round trip yields `0x10`, so bit 5 is
not reproduced. -/
theorem c1_counterexample :
    ¬ Nat.testBit (sh_il_get_status_reg (sh_il_set_status_reg 0x20)) 5
        = Nat.testBit (0x20 : Nat) 5 := by decide

/-! ## Arithmetic flag synthesizer (sh_il_is_add_carry, sh_il.c:313-333) -/

/-- `MSB` of a 32-bit IL value. -/
def msb32 (v : Nat) : Bool := v.testBit 31

/-- Denotation of `sh_il_is_add_carry`: with `res = x + y (mod 2^32)`,
the bit is `(xmsb && ymsb) || (!resmsb && ymsb) || (xmsb && !resmsb)`,
or-associated exactly as in the source. -/
def sh_il_is_add_carry (res x y : Nat) : Bool :=
  let xmsb := msb32 x
  let ymsb := msb32 y
  let resmsb := msb32 res
  let xy := xmsb && ymsb
  let nres := !resmsb
  let ry := nres && ymsb
  let xr := xmsb && nres
  (xy || ry) || xr

theorem msb32_eq_decide (v : Nat) (h : v < 2 ^ 32) : msb32 v = decide (2 ^ 31 ≤ v) := by
  simp only [msb32, Nat.testBit_to_div_mod, decide_eq_decide]
  omega

/-- C2: the lifter's add-carry predicate on `res = x + y mod 2^32` is true
exactly when the exact unsigned sum `x + y` exceeds `2^32 - 1`. -/
theorem c2_add_carry (x y : Nat) (hx : x < 2 ^ 32) (hy : y < 2 ^ 32) :
    sh_il_is_add_carry ((x + y) % 2 ^ 32) x y = true ↔ 2 ^ 32 - 1 < x + y := by
  have hr : (x + y) % 2 ^ 32 < 2 ^ 32 := Nat.mod_lt _ (by norm_num)
  simp only [sh_il_is_add_carry, msb32_eq_decide _ hx, msb32_eq_decide _ hy,
    msb32_eq_decide _ hr, Bool.or_eq_true, Bool.and_eq_true, Bool.not_eq_true',
    decide_eq_true_eq, decide_eq_false_iff_not]
  omega

/-- C2 witness: at `x = y = 2^31` the sum overflows and the predicate is true. -/
theorem c2_add_carry_witness :
    sh_il_is_add_carry ((2 ^ 31 + 2 ^ 31) % 2 ^ 32) (2 ^ 31) (2 ^ 31) = true :=
  (c2_add_carry (2 ^ 31) (2 ^ 31) (by norm_num) (by norm_num)).mpr (by norm_num)

/-! ## DIV1, the one-step division generator (sh_il_div1, sh_il.c:588-624)

The instruction's two operands are register-direct (`DIV1 Rm, Rn`), so the
operand getter/setter reduce to plain reads/writes of the 32-bit registers;
the state below carries the two registers and the three status bits involved.
The `OR` of the shifted dividend with the T bit is the bitwise or of the
32-bit vector with the 0/1-valued bit. -/

structure Div1State where
  rn : Nat
  rm : Nat
  q : Bool
  m : Bool
  t : Bool

/-- 32-bit wrapping addition. -/
def add32 (a b : Nat) : Nat := (a + b) % 2 ^ 32

/-- 32-bit wrapping subtraction. -/
def sub32 (a b : Nat) : Nat := (a + (2 ^ 32 - b % 2 ^ 32)) % 2 ^ 32

/-- Value of the dividend register after the generator's init phase
(`Rn := Rn << 1; Rn := Rn | T`). -/
def div1PreImage (s : Div1State) : Nat := ((s.rn <<< 1) % 2 ^ 32) ||| srBit s.t

/-- Denotation of the effect produced by `sh_il_div1`, executed in the order
`SEQ3(init, q_switch, SETG(T, EQ(Q, M)))` with
`init = SEQ4(old_q, q, shl, ort)` and `q_switch` the 4-way branch on
(`old_q`, `M`); each arm is `SEQ4(tmp0, add/sub, tmp1, q_bit)` where `q_bit`
branches on the already-updated global Q. -/
def sh_il_div1 (s0 : Div1State) : Div1State :=
  let old_q := s0.q
  let q1 := msb32 s0.rn
  let rn2 := div1PreImage s0
  let tmp0 := rn2
  let rn3 :=
    if old_q then
      if s0.m then sub32 rn2 s0.rm else add32 rn2 s0.rm
    else
      if s0.m then add32 rn2 s0.rm else sub32 rn2 s0.rm
  let tmp1 :=
    if old_q then
      if s0.m then decide (rn3 > tmp0) else decide (rn3 < tmp0)
    else
      if s0.m then decide (rn3 < tmp0) else decide (rn3 > tmp0)
  let q2 :=
    if old_q then
      if s0.m then (if q1 then tmp1 else !tmp1) else (if q1 then !tmp1 else tmp1)
    else
      if s0.m then (if q1 then tmp1 else !tmp1) else (if q1 then !tmp1 else tmp1)
  { rn := rn3, rm := s0.rm, q := q2, m := s0.m, t := q2 == s0.m }

/-- C3: the DIV1 lift branches four ways on the saved previous quotient bit and
the mode bit, adds or subtracts the divisor from the dividend's pre-image
(subtract when the saved Q equals M, add otherwise), toggles the quotient bit
by the unsigned comparison of the new value against the pre-image (direction
per arm, selected by the updated Q = old MSB of Rn), leaves M unchanged, and
finally sets T exactly when the resulting Q equals M. -/
theorem c3_div1 (s : Div1State) :
    ((sh_il_div1 s).m = s.m)
  ∧ ((sh_il_div1 s).t = ((sh_il_div1 s).q == (sh_il_div1 s).m))
  ∧ (s.q = s.m → (sh_il_div1 s).rn = sub32 (div1PreImage s) s.rm)
  ∧ (s.q ≠ s.m → (sh_il_div1 s).rn = add32 (div1PreImage s) s.rm)
  ∧ (s.q = false → s.m = false → (sh_il_div1 s).q =
      (if msb32 s.rn then !(decide (sub32 (div1PreImage s) s.rm > div1PreImage s))
       else decide (sub32 (div1PreImage s) s.rm > div1PreImage s)))
  ∧ (s.q = false → s.m = true → (sh_il_div1 s).q =
      (if msb32 s.rn then decide (add32 (div1PreImage s) s.rm < div1PreImage s)
       else !(decide (add32 (div1PreImage s) s.rm < div1PreImage s))))
  ∧ (s.q = true → s.m = false → (sh_il_div1 s).q =
      (if msb32 s.rn then !(decide (add32 (div1PreImage s) s.rm < div1PreImage s))
       else decide (add32 (div1PreImage s) s.rm < div1PreImage s)))
  ∧ (s.q = true → s.m = true → (sh_il_div1 s).q =
      (if msb32 s.rn then decide (sub32 (div1PreImage s) s.rm > div1PreImage s)
       else !(decide (sub32 (div1PreImage s) s.rm > div1PreImage s)))) := by
  cases hq : s.q <;> cases hm : s.m <;>
    simp [sh_il_div1, hq, hm]

/-- C3 witness: executing the step on a concrete state exercises the
subtract arm (previous Q = M) and yields the expected register value. -/
theorem c3_div1_witness : (sh_il_div1 ⟨4, 3, false, false, true⟩).rn = 6 := by
  have h := (c3_div1 ⟨4, 3, false, false, true⟩).2.2.1 rfl
  rw [h]
  decide

/-! ## MAC.L, the long multiply-accumulate generator (sh_il_mac, sh_il.c:742-771)

Only the longword branch (`op->scaling == SH_SCALING_L`) is modelled; the two
operand values are the 32-bit words loaded from memory by the `@Rm+` / `@Rn+`
operands, supplied here as `rmval` / `rnval`.  The post-increment effects of
those operands only touch the address registers and are outside this state.
The crucial detail mirrored below: the effect initializes a LOCAL variable
`"mac"` via `SETL`, the saturating branch updates that local via
`SETL("mac", sat)`, but the non-saturating branch executes
`SETG("mac", DUP(add))` which writes a GLOBAL variable named `"mac"` (there is
no such register; `"mach"` and `"macl"` are distinct globals); the subsequent
`SETG("macl", ...)`/`SETG("mach", ...)` read the LOCAL via `VARL("mac")`.
The stray global is carried as `gmac`, which nothing ever reads. -/

structure MacState where
  mach : Nat
  macl : Nat
  gmac : Option Nat

/-- Sign extension of the low `src` bits of `x` to a `tgt`-bit value. -/
def signExt (src tgt x : Nat) : Nat :=
  ((x % 2 ^ src) + (if (x % 2 ^ src).testBit (src - 1) then 2 ^ tgt - 2 ^ src else 0)) % 2 ^ tgt

/-- Denotation of the longword branch of `sh_il_mac`. -/
def sh_il_mac_l (sFlag : Bool) (rmval rnval : Nat) (s : MacState) : MacState :=
  let macLocal := ((s.mach <<< 32) ||| s.macl) % 2 ^ 64
  let mul := (signExt 32 64 rmval * signExt 32 64 rnval) % 2 ^ 64
  let addv := (mul + macLocal) % 2 ^ 64
  let low := (addv &&& 0xffffffffffff) % 2 ^ 48
  let sat := signExt 48 64 low
  let macLocal2 := if sFlag then sat else macLocal
  let gmac2 := if sFlag then s.gmac else some addv
  { mach := (macLocal2 >>> 32) % 2 ^ 32,
    macl := (macLocal2 &&& 0xffffffff) % 2 ^ 32,
    gmac := gmac2 }

/-- C4 (code bug): when the saturation bit S is false, the generated effect
leaves the `mach:macl` accumulator unchanged — the sum is written to a stray
global named `"mac"` (via `SETG` instead of `SETL`) that the following reads of
the local `"mac"` never observe — contradicting the source's own documentation
`Rn * Rm + MAC -> MAC`. -/
theorem c4_mac_l_s0_unchanged (rmval rnval : Nat) (s : MacState)
    (hh : s.mach < 2 ^ 32) (hl : s.macl < 2 ^ 32) :
    (sh_il_mac_l false rmval rnval s).mach = s.mach
  ∧ (sh_il_mac_l false rmval rnval s).macl = s.macl := by
  have h1 : s.mach <<< 32 ||| s.macl = 2 ^ 32 * s.mach + s.macl := by
    rw [Nat.shiftLeft_eq, Nat.mul_comm]
    exact (Nat.mul_add_lt_is_or hl s.mach).symm
  have hmask : (0xffffffff : Nat) = 2 ^ 32 - 1 := rfl
  constructor <;>
    simp only [sh_il_mac_l, if_neg Bool.false_ne_true, Bool.false_eq_true, if_false, h1,
      Nat.shiftRight_eq_div_pow, hmask, Nat.and_pow_two_sub_one_eq_mod] <;>
    omega

/-- C4 witness: at the failing input (S = 0, both loaded operands 1, empty
accumulator) the code leaves `macl = 0` where the claim demands `macl = 1`;
the sum does reach the stray global, and the S = 1 path of the very same
generator does accumulate. -/
theorem c4_mac_l_witness :
    (sh_il_mac_l false 1 1 ⟨0, 0, none⟩).macl = 0
  ∧ (sh_il_mac_l false 1 1 ⟨0, 0, none⟩).gmac = some 1
  ∧ (sh_il_mac_l true 1 1 ⟨0, 0, none⟩).macl = 1 := by
  refine ⟨(c4_mac_l_s0_unchanged 1 1 ⟨0, 0, none⟩ (by norm_num) (by norm_num)).2, ?_, ?_⟩ <;>
    decide

/-! ## Register binding derivation (rz_il_reg_binding_derive, rz_il_reg.c part)

The algorithm is modelled for one register class (the C function runs the same
per-class loop for every `reg->regset[i]` independently).  A profile is the
ordered list of register descriptors of the class, plus the name the profile
designates as the program counter (`rz_reg_get_name(reg, RZ_REG_NAME_PC)`). -/

structure RegItem where
  name : String
  offset : Nat
  size : Nat

/-- Flag phase: push every 1-bit register, deduplicating by offset
(first occurrence wins), in input order. -/
def bindFlags (flags : List RegItem) : List RegItem → List RegItem
  | [] => flags
  | item :: rest =>
    if item.size != 1 then bindFlags flags rest
    else if flags.any (fun item2 => item2.offset == item.offset) then bindFlags flags rest
    else bindFlags (flags ++ [item]) rest

/-- Does a bound flag fall inside the item's bit range
(`flag->offset >= item->offset && flag->offset < item->offset + item->size`)? -/
def containsBoundFlag (flags : List RegItem) (item : RegItem) : Bool :=
  flags.any (fun fl => item.offset ≤ fl.offset && fl.offset < item.offset + item.size)

/-- Modelled from the spec: `rz_reg_filter_items_covered` is not part of the
provided sources; per the spec (§4.6 step 3) and the in-source comment it
removes every register that is covered entirely by another register in the
same set and is smaller than it. -/
def rz_reg_filter_items_covered (l : List RegItem) : List RegItem :=
  l.filter (fun r => !(l.any (fun r2 =>
    r.size < r2.size && r2.offset ≤ r.offset && r.offset + r.size ≤ r2.offset + r2.size)))

/-- Does the previously bound item overlap the candidate
(`prev && prev->offset + prev->size > item->offset`)? -/
def prevOverlap : Option RegItem → RegItem → Bool
  | none, _ => false
  | some p, item => item.offset < p.offset + p.size

/-- Left-to-right scan over the sorted remaining registers: skip an item
overlapping the previously bound one, skip the program counter, bind the rest. -/
def scanBind (pc : Option String) : Option RegItem → List RegItem → List RegItem
  | _, [] => []
  | prev, item :: rest =>
    if prevOverlap prev item then scanBind pc prev rest
    else if pc == some item.name then scanBind pc prev rest
    else item :: scanBind pc (some item) rest

/-- The non-flag portion of the derived binding: filter registers containing a
bound flag, drop covered registers, sort by offset (stably), then scan. -/
def derivedNonflagItems (pc : Option String) (regs : List RegItem) : List RegItem :=
  let flags := bindFlags [] regs
  let nonflags := regs.filter (fun it => !(containsBoundFlag flags it))
  let items := rz_reg_filter_items_covered nonflags
  let sorted := items.mergeSort (fun a b => a.offset ≤ b.offset)
  scanBind pc none sorted

/-- The derived binding: the flag entries followed by the scanned non-flag
entries, each as a (name, size) pair. -/
def rz_il_reg_binding_derive (pc : Option String) (regs : List RegItem) :
    List (String × Nat) :=
  (bindFlags [] regs).map (fun it => (it.name, it.size))
    ++ (derivedNonflagItems pc regs).map (fun it => (it.name, it.size))

theorem scanBind_ge (pc : Option String) :
    ∀ (xs : List RegItem) (x : RegItem), ∀ r ∈ scanBind pc (some x) xs,
      x.offset + x.size ≤ r.offset := by
  intro xs
  induction xs with
  | nil => intro x r hr; simp [scanBind] at hr
  | cons item rest ih =>
    intro x r hr
    rw [scanBind] at hr
    split at hr
    · exact ih x r hr
    · split at hr
      · exact ih x r hr
      · rename_i hov hpc
        simp only [prevOverlap, decide_eq_true_eq, Nat.not_lt] at hov
        rcases List.mem_cons.mp hr with rfl | hr2
        · omega
        · have h2 := ih item r hr2
          omega

theorem scanBind_chain (pc : Option String) :
    ∀ (xs : List RegItem) (prev : Option RegItem),
      List.Pairwise (fun a b => a.offset + a.size ≤ b.offset) (scanBind pc prev xs) := by
  intro xs
  induction xs with
  | nil => intro prev; simp [scanBind]
  | cons item rest ih =>
    intro prev
    rw [scanBind]
    split
    · exact ih prev
    · split
      · exact ih prev
      · exact List.Pairwise.cons (fun r hr => scanBind_ge pc rest item r hr) (ih (some item))

theorem scanBind_no_pc (pc : Option String) :
    ∀ (xs : List RegItem) (prev : Option RegItem) (r : RegItem),
      r ∈ scanBind pc prev xs → pc ≠ some r.name := by
  intro xs
  induction xs with
  | nil => intro prev r hr; simp [scanBind] at hr
  | cons item rest ih =>
    intro prev r hr
    rw [scanBind] at hr
    split at hr
    · exact ih prev r hr
    · split at hr
      · exact ih prev r hr
      · rename_i hov hpc
        rcases List.mem_cons.mp hr with rfl | hr2
        · intro hc
          exact hpc (by simp [hc])
        · exact ih (some item) r hr2

/-- C5 (amended): in a derived binding, no two non-flag entries have
overlapping bit ranges, and the program-counter name never appears among the
non-flag entries.  (A 1-bit program counter register would still be bound by
the unconditional flag phase, hence the restriction to non-flag entries.) -/
theorem c5_binding_nonoverlap (pc : Option String) (regs : List RegItem) :
    List.Pairwise
      (fun a b => ¬(a.offset < b.offset + b.size ∧ b.offset < a.offset + a.size))
      (derivedNonflagItems pc regs)
  ∧ (∀ r ∈ derivedNonflagItems pc regs, pc ≠ some r.name)
  ∧ rz_il_reg_binding_derive pc regs
      = (bindFlags [] regs).map (fun it => (it.name, it.size))
        ++ (derivedNonflagItems pc regs).map (fun it => (it.name, it.size)) := by
  refine ⟨?_, ?_, rfl⟩
  · exact (scanBind_chain pc _ none).imp (fun h => by omega)
  · intro r hr
    exact scanBind_no_pc pc _ none r hr

/-- C5 (counterexample): a profile whose program counter is a 1-bit register
gets the PC bound by the flag phase, so the PC name does appear in the derived
binding, contradicting the claim as stated. -/
theorem c5_counterexample :
    ("pc", 1) ∈ rz_il_reg_binding_derive (some "pc") [⟨"pc", 0, 1⟩] := by
  have h : rz_il_reg_binding_derive (some "pc") [⟨"pc", 0, 1⟩] = [("pc", 1)] := by
    simp [rz_il_reg_binding_derive, derivedNonflagItems, bindFlags, containsBoundFlag,
      rz_reg_filter_items_covered, List.mergeSort_nil, scanBind]
  rw [h]
  exact List.mem_singleton.mpr rfl

/-! ## Register sync engine (rz_il_vm_sync_to_reg / rz_il_vm_sync_from_reg)

The register file is a list of (name, size, value) entries; `rz_reg_get` is a
first-match lookup and `rz_reg_set_bv` updates the value of the named entry
(it is modelled as always succeeding on an entry it found).  A VM value is
either a bitvector with its width or some non-bitvector variant. -/

structure RegEntry where
  name : String
  size : Nat
  value : Nat

inductive RzILVal where
  | bv (width : Nat) (value : Nat)
  | other

structure ILVM where
  pcWidth : Nat
  pcValue : Nat
  vars : List (String × RzILVal)

def regGet (rf : List RegEntry) (n : String) : Option RegEntry :=
  rf.find? (fun e => e.name == n)

def regSetBv (rf : List RegEntry) (n : String) (v : Nat) : List RegEntry :=
  rf.map (fun e => if e.name == n then { e with value := v } else e)

def varGet (vars : List (String × RzILVal)) (n : String) : Option RzILVal :=
  (vars.find? (fun p => p.1 == n)).map Prod.snd

def varBind (vars : List (String × RzILVal)) (n : String) (v : RzILVal) :
    List (String × RzILVal) :=
  vars.map (fun p => if p.1 == n then (p.1, v) else p)

/-- Width coercion used by the push: the value is copied into a zeroed vector
of the destination size `s`, transferring `min w s` low-order bits
(`rz_bv_new_zero` + `rz_bv_copy_nbits`). -/
def pushCoerce (s w v : Nat) : Nat := v % 2 ^ min w s

/-- The per-entry loop of `rz_il_vm_sync_to_reg`: missing register, and missing
or non-bitvector variable, clear the fidelity flag (the latter also writes a
zero vector); a width mismatch clears it and coerces; otherwise the value is
written unchanged. -/
def syncEntries (vars : List (String × RzILVal)) :
    List RegEntry → Bool → List (String × Nat) → List RegEntry × Bool
  | rf, perfect, [] => (rf, perfect)
  | rf, perfect, item :: rest =>
    match regGet rf item.1 with
    | none => syncEntries vars rf false rest
    | some ri =>
      match varGet vars item.1 with
      | some (.bv w v) =>
        if w != ri.size then
          syncEntries vars (regSetBv rf item.1 (pushCoerce ri.size w v)) false rest
        else
          syncEntries vars (regSetBv rf item.1 v) perfect rest
      | _ => syncEntries vars (regSetBv rf item.1 0) false rest

/-- Denotation of `rz_il_vm_sync_to_reg`: push the PC first (missing PC name or
register clears fidelity, as does a PC width mismatch), then push every bound
entry. -/
def rz_il_vm_sync_to_reg (vm : ILVM) (pcName : Option String) (rf : List RegEntry)
    (binding : List (String × Nat)) : List RegEntry × Bool :=
  let step1 : List RegEntry × Bool :=
    match pcName with
    | none => (rf, false)
    | some pcn =>
      match regGet rf pcn with
      | none => (rf, false)
      | some ri =>
        (regSetBv rf pcn (vm.pcValue % 2 ^ min ri.size vm.pcWidth), ri.size == vm.pcWidth)
  syncEntries vm.vars step1.1 step1.2 binding

/-- A bound entry is pushed cleanly iff its register exists and its VM variable
is a bitvector of exactly the register's size. -/
def entryCleanB (vars : List (String × RzILVal)) (rf : List RegEntry) (n : String) : Bool :=
  match regGet rf n with
  | none => false
  | some ri =>
    match varGet vars n with
    | some (.bv w _) => w == ri.size
    | _ => false

/-- The PC is pushed cleanly iff the profile names a PC, the register exists,
and its size equals the VM's PC width. -/
def pcCleanB (vm : ILVM) (pcName : Option String) (rf : List RegEntry) : Bool :=
  match pcName with
  | none => false
  | some pcn =>
    match regGet rf pcn with
    | none => false
    | some ri => ri.size == vm.pcWidth

theorem regGet_setBv (rf : List RegEntry) (n m : String) (v : Nat) :
    regGet (regSetBv rf n v) m
      = (regGet rf m).map (fun e => if e.name == n then { e with value := v } else e) := by
  unfold regGet regSetBv
  rw [List.find?_map]
  have hp : ((fun e => e.name == m) ∘ fun e =>
      if e.name == n then { e with value := v } else e) = (fun e : RegEntry => e.name == m) := by
    funext e
    simp only [Function.comp_apply]
    split <;> rfl
  rw [hp]

theorem entryCleanB_setBv (vars : List (String × RzILVal)) (rf : List RegEntry)
    (n m : String) (v : Nat) :
    entryCleanB vars (regSetBv rf n v) m = entryCleanB vars rf m := by
  unfold entryCleanB
  rw [regGet_setBv]
  cases regGet rf m with
  | none => rfl
  | some ri =>
    simp only [Option.map_some']
    by_cases h : ri.name == n <;> simp [h]

theorem syncEntries_perfect (vars : List (String × RzILVal)) :
    ∀ (bs : List (String × Nat)) (rf : List RegEntry) (p : Bool),
      (syncEntries vars rf p bs).2
        = (p && bs.all (fun it => entryCleanB vars rf it.1)) := by
  intro bs
  induction bs with
  | nil => intro rf p; simp [syncEntries]
  | cons item rest ih =>
    intro rf p
    rw [syncEntries]
    cases hreg : regGet rf item.1 with
    | none =>
      rw [ih]
      simp [List.all_cons, entryCleanB, hreg]
    | some ri =>
      cases hvar : varGet vars item.1 with
      | none =>
        rw [ih]
        simp only [entryCleanB_setBv]
        simp [List.all_cons, entryCleanB, hreg, hvar]
      | some val =>
        cases val with
        | other =>
          rw [ih]
          simp only [entryCleanB_setBv]
          simp [List.all_cons, entryCleanB, hreg, hvar]
        | bv w v =>
          dsimp only
          rcases eq_or_ne w ri.size with hw | hw <;>
            [rw [if_neg (by simp [hw])]; rw [if_pos (by simp [hw])]] <;>
            rw [ih] <;> simp only [entryCleanB_setBv] <;>
            simp [List.all_cons, entryCleanB, hreg, hvar, hw]

/-- C6: during a push, a narrower VM value is zero-extended and a wider one is
truncated to its low-order bits; the returned fidelity flag is true iff the PC
transfer was clean and every bound entry had its register and a bitvector
variable of exactly the register's size (no coercion, no missing
counterpart). -/
theorem c6_sync_to_reg (vm : ILVM) (pcName : Option String) (rf : List RegEntry)
    (binding : List (String × Nat)) :
    ((rz_il_vm_sync_to_reg vm pcName rf binding).2 = true ↔
        (pcCleanB vm pcName rf = true
          ∧ ∀ it ∈ binding, entryCleanB vm.vars rf it.1 = true))
  ∧ (∀ s w v : Nat, v < 2 ^ w → pushCoerce s w v = if w ≤ s then v else v % 2 ^ s) := by
  constructor
  · unfold rz_il_vm_sync_to_reg pcCleanB
    cases pcName with
    | none => simp [syncEntries_perfect]
    | some pcn =>
      cases hreg : regGet rf pcn with
      | none => simp [hreg, syncEntries_perfect]
      | some ri =>
        simp [hreg, syncEntries_perfect, entryCleanB_setBv, List.all_eq_true]
  · intro s w v hv
    unfold pushCoerce
    rcases Nat.le_total w s with h | h
    · rw [if_pos h, Nat.min_eq_left h, Nat.mod_eq_of_lt hv]
    · rcases Nat.lt_or_ge w s with h2 | h2
      · rw [if_pos (Nat.le_of_lt h2), Nat.min_eq_left (Nat.le_of_lt h2), Nat.mod_eq_of_lt hv]
      · by_cases he : w ≤ s
        · rw [if_pos he, Nat.min_eq_left he, Nat.mod_eq_of_lt hv]
        · rw [if_neg he, Nat.min_eq_right (by omega)]

/-- C6 witness: pushing the 4-bit value 9 into an 8-bit register zero-extends. -/
theorem c6_sync_to_reg_witness : pushCoerce 8 4 9 = if 4 ≤ 8 then 9 else 9 % 2 ^ 8 :=
  (c6_sync_to_reg ⟨32, 0, []⟩ none [] []).2 8 4 9 (by norm_num)

/-- The per-entry loop of `rz_il_vm_sync_from_reg`: a missing variable is
skipped (only logged); a missing register yields a fresh zero bitvector of the
binding's recorded size; a width mismatch coerces into a zero vector of the
binding size; the variable is then re-bound to the value. -/
def fromRegEntries (rf : List RegEntry) :
    List (String × RzILVal) → List (String × Nat) → List (String × RzILVal)
  | vars, [] => vars
  | vars, item :: rest =>
    match varGet vars item.1 with
    | none => fromRegEntries rf vars rest
    | some _ =>
      let bvp : Nat × Nat :=
        match regGet rf item.1 with
        | some ri => (ri.size, ri.value)
        | none => (item.2, 0)
      let bvp2 := if bvp.1 != item.2 then (item.2, bvp.2 % 2 ^ min bvp.1 item.2) else bvp
      fromRegEntries rf (varBind vars item.1 (.bv item.2 bvp2.2)) rest

/-- Denotation of `rz_il_vm_sync_from_reg`: pull the PC (zeroing it and copying
the low bits of the PC register if present), then pull every bound entry.
The function is total: no error is reported to the caller. -/
def rz_il_vm_sync_from_reg (vm : ILVM) (pcName : Option String) (rf : List RegEntry)
    (binding : List (String × Nat)) : ILVM :=
  let vm1 :=
    match pcName with
    | none => vm
    | some pcn =>
      match regGet rf pcn with
      | none => vm
      | some ri => { vm with pcValue := ri.value % 2 ^ min ri.size vm.pcWidth }
  { vm1 with vars := fromRegEntries rf vm1.vars binding }

theorem varGet_varBind (n m : String) (v : RzILVal) (vars : List (String × RzILVal)) :
    varGet (varBind vars n v) m
      = if m = n then Option.map (fun _ => v) (varGet vars m) else varGet vars m := by
  unfold varGet varBind
  rw [List.find?_map]
  have hp : ((fun p => p.1 == m) ∘ fun p : String × RzILVal =>
      if p.1 == n then (p.1, v) else p) = (fun p : String × RzILVal => p.1 == m) := by
    funext p
    simp only [Function.comp_apply]
    split <;> rfl
  rw [hp]
  cases hf : vars.find? (fun p => p.1 == m) with
  | none => simp only [Option.map_none']; split <;> rfl
  | some p =>
    have hpm : p.1 = m := by
      have h2 := List.find?_some hf
      simpa using h2
    simp only [Option.map_map, Option.map_some']
    by_cases hmn : m = n
    · have hb : (p.1 == n) = true := beq_iff_eq.mpr (hpm.trans hmn)
      simp [Function.comp, hb, hmn]
    · have hb : (p.1 == n) = false := by
        rw [beq_eq_false_iff_ne, ne_eq, hpm]
        exact hmn
      simp [Function.comp, hb, hmn]

theorem fromRegEntries_notmem (rf : List RegEntry) (nm : String) :
    ∀ (bs : List (String × Nat)) (vars : List (String × RzILVal)),
      nm ∉ bs.map Prod.fst →
      varGet (fromRegEntries rf vars bs) nm = varGet vars nm := by
  intro bs
  induction bs with
  | nil => intro vars _; rfl
  | cons item rest ih =>
    intro vars h
    have hne : nm ≠ item.1 := by
      intro hc
      exact h (by simp [hc])
    have htail : nm ∉ rest.map Prod.fst := by
      intro hc
      exact h (by simp [hc])
    rw [fromRegEntries]
    cases hv : varGet vars item.1 with
    | none => exact ih vars htail
    | some val =>
      dsimp only
      rw [ih _ htail, varGet_varBind, if_neg hne]

theorem fromRegEntries_missing_reg (rf : List RegEntry) (nm : String) (sz : Nat)
    (hreg : regGet rf nm = none) :
    ∀ (bs : List (String × Nat)) (vars : List (String × RzILVal)),
      (nm, sz) ∈ bs → (bs.map Prod.fst).Nodup → (varGet vars nm).isSome = true →
      varGet (fromRegEntries rf vars bs) nm = some (.bv sz 0) := by
  intro bs
  induction bs with
  | nil => intro vars h; cases h
  | cons item rest ih =>
    intro vars hmem hnodup hvar
    have hnodup2 : (rest.map Prod.fst).Nodup ∧ item.1 ∉ rest.map Prod.fst := by
      simp only [List.map_cons, List.nodup_cons] at hnodup
      exact ⟨hnodup.2, hnodup.1⟩
    rcases List.mem_cons.mp hmem with heq | htail
    · subst heq
      rw [fromRegEntries]
      dsimp only
      cases hv : varGet vars nm with
      | none => rw [hv] at hvar; cases hvar
      | some val =>
        dsimp only
        rw [hreg]
        dsimp only
        rw [if_neg (by simp)]
        have hrest : nm ∉ rest.map Prod.fst := hnodup2.2
        rw [fromRegEntries_notmem rf nm rest _ hrest, varGet_varBind, if_pos rfl, hv]
        rfl
    · have hne : nm ≠ item.1 := by
        intro hc
        exact hnodup2.2 (hc ▸ (List.mem_map.mpr ⟨(nm, sz), htail, rfl⟩))
      rw [fromRegEntries]
      cases hv : varGet vars item.1 with
      | none => exact ih vars htail hnodup2.1 hvar
      | some val =>
        dsimp only
        refine ih _ htail hnodup2.1 ?_
        rw [varGet_varBind, if_neg hne]
        exact hvar

/-- C10: during a pull, a bound entry whose register is missing from the
register file gets its VM variable re-bound to an all-zero bitvector of the
binding's recorded size (it is not left unchanged); the pull is total and
reports nothing to the caller. -/
theorem c10_pull_missing_reg (vm : ILVM) (pcName : Option String) (rf : List RegEntry)
    (binding : List (String × Nat)) (nm : String) (sz : Nat)
    (hmem : (nm, sz) ∈ binding)
    (hnodup : (binding.map Prod.fst).Nodup)
    (hreg : regGet rf nm = none)
    (hvar : (varGet vm.vars nm).isSome = true) :
    varGet (rz_il_vm_sync_from_reg vm pcName rf binding).vars nm
      = some (.bv sz 0) := by
  unfold rz_il_vm_sync_from_reg
  cases pcName with
  | none => exact fromRegEntries_missing_reg rf nm sz hreg binding vm.vars hmem hnodup hvar
  | some pcn =>
    cases hp : regGet rf pcn with
    | none =>
      dsimp only
      rw [hp]
      exact fromRegEntries_missing_reg rf nm sz hreg binding vm.vars hmem hnodup hvar
    | some ri =>
      dsimp only
      rw [hp]
      exact fromRegEntries_missing_reg rf nm sz hreg binding vm.vars hmem hnodup hvar

/-- C10 witness: a binding entry `("a", 8)` with no register `"a"` in the file
re-binds the variable `"a"` (previously holding 5) to an 8-bit zero. -/
theorem c10_pull_missing_reg_witness :
    varGet (rz_il_vm_sync_from_reg ⟨32, 0, [("a", .bv 8 5)]⟩ none [] [("a", 8)]).vars "a"
      = some (.bv 8 0) :=
  c10_pull_missing_reg ⟨32, 0, [("a", .bv 8 5)]⟩ none [] [("a", 8)] "a" 8 (by decide)
    (by decide) rfl rfl

/-! ## Syntactic IL layer: operand resolver, register access, LDC

`sh_il_get_reg`, `sh_il_set_reg`, the operand resolver and `sh_il_ldc` build
RzIL trees; they are embedded here as builders of a syntactic AST restricted
to the IL constructors these functions actually emit.  `Option` mirrors the
nullable `RzILOp*` pointers: every rizin constructor null-checks its operands
and returns `NULL` when one is missing, which the `*v` builders reproduce. -/

/-- Modelled from the spec: register-index constants of the missing `regs.h`.
Sixteen general-purpose registers occupy indices 0..15 and the control
registers (PC, SR, GBR, ...) follow; only the facts that `SH_GPR_COUNT = 16`,
eight banked registers, and SR and GBR being distinct indices above 15 are
relied upon. -/
def SH_GPR_COUNT : Nat := 16

def SH_BANKED_REG_COUNT : Nat := 8

def SH_REG_IND_R0 : Nat := 0

def SH_REG_IND_SR : Nat := 17

def SH_REG_IND_GBR : Nat := 18

def sh_valid_gpr (reg : Nat) : Bool := reg < SH_GPR_COUNT

def sh_banked_reg (reg : Nat) : Bool := reg < SH_BANKED_REG_COUNT

/-- The IL variable names of the status-register bits (`SH_SR_*` of regs.h). -/
def SH_SR_T : String := "sr_t"
def SH_SR_S : String := "sr_s"
def SH_SR_I : String := "sr_i"
def SH_SR_Q : String := "sr_q"
def SH_SR_M : String := "sr_m"
def SH_SR_F : String := "sr_f"
def SH_SR_B : String := "sr_b"
def SH_SR_R : String := "sr_r"
def SH_SR_D : String := "sr_d"

/-- `sh_global_registers` (sh_il.c:55-61), in source order: bank-0 r0-r7,
bank-1 r0b-r7b, r8-r15, sr, the status bits (with `SH_SR_I` listed twice as in
the source), then the control registers. -/
def sh_global_registers : List String :=
  ["r0", "r1", "r2", "r3", "r4", "r5", "r6", "r7",
   "r0b", "r1b", "r2b", "r3b", "r4b", "r5b", "r6b", "r7b",
   "r8", "r9", "r10", "r11", "r12", "r13", "r14", "r15", "sr",
   SH_SR_T, SH_SR_S, SH_SR_I, SH_SR_I, SH_SR_Q, SH_SR_M, SH_SR_F, SH_SR_B, SH_SR_R, SH_SR_D,
   "gbr", "ssr", "spc", "sgr", "dbr", "vbr", "mach", "macl", "pr"]

/-- Modelled from the spec: the `sh_registers` index-to-name table of the
missing `regs.h`: the sixteen GPRs, then PC, SR, GBR and the further control
registers. -/
def sh_registers (idx : Nat) : String :=
  (["r0", "r1", "r2", "r3", "r4", "r5", "r6", "r7",
    "r8", "r9", "r10", "r11", "r12", "r13", "r14", "r15",
    "pc", "sr", "gbr", "ssr", "spc", "sgr", "dbr", "vbr", "mach", "macl", "pr"]).getD idx ""

/-- `sh_get_banked_reg` (sh_il.c:63-68). -/
def sh_get_banked_reg (reg : Nat) (bank : Nat) : Option String :=
  if sh_banked_reg reg = false ∨ bank > 1 then none
  else some (sh_global_registers.getD (reg + bank * SH_BANKED_REG_COUNT) "")

mutual
/-- Boolean-sorted IL expressions emitted by the embedded builders. -/
inductive SHPureB where
  | varb (n : String)
  | andb (a b : SHPureB)
  | nonZero (a : SHPure)

/-- Bitvector-sorted IL expressions emitted by the embedded builders. -/
inductive SHPure where
  | bv (w v : Nat)
  | varg (n : String)
  | iteb (c : SHPureB) (a b : SHPure)
  | add (a b : SHPure)
  | sub (a b : SHPure)
  | mul (a b : SHPure)
  | logand (a b : SHPure)
  | logor (a b : SHPure)
  | shiftl (a b : SHPure)
  | shiftr (a b : SHPure)
  | unsigned (w : Nat) (a : SHPure)
  | signed (w : Nat) (a : SHPure)
  | loadw (w : Nat) (addr : SHPure)
end

/-- Effect-sorted IL nodes emitted by the embedded builders. -/
inductive SHEffect where
  | setg (n : String) (v : SHPure)
  | setgb (n : String) (v : SHPureB)
  | seq (a b : SHEffect)
  | branch (c : SHPureB) (a b : SHEffect)
  | storew (addr v : SHPure)
  | nop

/-- `SETG` with a nullable variable name and value. -/
def SETGv (n : Option String) (v : Option SHPure) : Option SHEffect :=
  match n, v with
  | some n, some v => some (.setg n v)
  | _, _ => none

/-- `SEQ2` with nullable arguments (rz_il_op_new_seq null-checks both). -/
def SEQ2v (a b : Option SHEffect) : Option SHEffect :=
  match a, b with
  | some a, some b => some (.seq a b)
  | _, _ => none

/-- `STOREW` with nullable key and value. -/
def STOREWv (addr v : Option SHPure) : Option SHEffect :=
  match addr, v with
  | some a, some v => some (.storew a v)
  | _, _ => none

/-- `BRANCH` with nullable branch effects. -/
def BRANCHv (c : SHPureB) (a b : Option SHEffect) : Option SHEffect :=
  match a, b with
  | some a, some b => some (.branch c a b)
  | _, _ => none

/-- `VARG` with a nullable name. -/
def VARGv : Option String → Option SHPure
  | some n => some (.varg n)
  | none => none

/-- Binary pure constructor applied to nullable operands. -/
def pmap2 (f : SHPure → SHPure → SHPure) : Option SHPure → Option SHPure → Option SHPure
  | some a, some b => some (f a b)
  | _, _ => none

/-- `ITE` with nullable branches. -/
def ITEv (c : SHPureB) (a b : Option SHPure) : Option SHPure := pmap2 (.iteb c) a b

/-- `sh_il_get_status_reg_bit` as a tree. -/
def statusRegBit (bit : String) : SHPure := .iteb (.varb bit) (.bv 32 1) (.bv 32 0)

/-- The tree built by `sh_il_get_status_reg` (same chain as the denotational
`sh_il_get_status_reg` above). -/
def sh_il_get_status_reg_ast : SHPure :=
  let val := SHPure.bv 32 0
  let val := SHPure.logor (.unsigned 32 (statusRegBit SH_SR_D)) val
  let val := SHPure.shiftl val (.bv 32 1)
  let val := SHPure.logor (.unsigned 32 (statusRegBit SH_SR_R)) val
  let val := SHPure.shiftl val (.bv 32 1)
  let val := SHPure.logor (.unsigned 32 (statusRegBit SH_SR_B)) val
  let val := SHPure.shiftl val (.bv 32 13)
  let val := SHPure.logor (.unsigned 32 (statusRegBit SH_SR_F)) val
  let val := SHPure.shiftl val (.bv 32 6)
  let val := SHPure.logor (.unsigned 32 (statusRegBit SH_SR_M)) val
  let val := SHPure.shiftl val (.bv 32 1)
  let val := SHPure.logor (.unsigned 32 (statusRegBit SH_SR_Q)) val
  let val := SHPure.shiftl val (.bv 32 4)
  let val := SHPure.logor (.unsigned 32 (statusRegBit SH_SR_I)) val
  let val := SHPure.shiftl val (.bv 32 3)
  let val := SHPure.logor (.unsigned 32 (statusRegBit SH_SR_S)) val
  let val := SHPure.shiftl val (.bv 32 1)
  SHPure.logor (.unsigned 32 (statusRegBit SH_SR_T)) val

/-- The tree built by `sh_il_set_status_reg` (the `DUP` of the shifted word is
sharing-free in a tree, so each step reuses the shifted subtree). -/
def sh_il_set_status_reg_ast (val : SHPure) : SHEffect :=
  let eff := SHEffect.setgb SH_SR_T (.nonZero (.logand (.bv 32 0x1) val))
  let v1 := SHPure.shiftr val (.bv 32 1)
  let eff := SHEffect.seq eff (.setgb SH_SR_S (.nonZero (.logand (.bv 32 0x1) v1)))
  let v2 := SHPure.shiftr v1 (.bv 32 3)
  let eff := SHEffect.seq eff (.setgb SH_SR_I (.nonZero (.logand (.bv 32 0xf) v2)))
  let v3 := SHPure.shiftr v2 (.bv 32 4)
  let eff := SHEffect.seq eff (.setgb SH_SR_Q (.nonZero (.logand (.bv 32 0x1) v3)))
  let v4 := SHPure.shiftr v3 (.bv 32 1)
  let eff := SHEffect.seq eff (.setgb SH_SR_M (.nonZero (.logand (.bv 32 0x1) v4)))
  let v5 := SHPure.shiftr v4 (.bv 32 6)
  let eff := SHEffect.seq eff (.setgb SH_SR_F (.nonZero (.logand (.bv 32 0x1) v5)))
  let v6 := SHPure.shiftr v5 (.bv 32 13)
  let eff := SHEffect.seq eff (.setgb SH_SR_B (.nonZero (.logand (.bv 32 0x1) v6)))
  let v7 := SHPure.shiftr v6 (.bv 32 1)
  let eff := SHEffect.seq eff (.setgb SH_SR_R (.nonZero (.logand (.bv 32 0x1) v7)))
  let v8 := SHPure.shiftr v7 (.bv 32 1)
  SHEffect.seq eff (.setgb SH_SR_D (.nonZero (.logand (.bv 32 0x1) v8)))

/-- The tree built by `sh_il_get_reg` (sh_il.c:124-136). -/
def sh_il_get_reg_ast (reg : Nat) : Option SHPure :=
  if sh_valid_gpr reg = false then none
  else if sh_banked_reg reg = false then
    if reg = SH_REG_IND_SR then some sh_il_get_status_reg_ast
    else some (.varg (sh_registers reg))
  else
    ITEv (.andb (.varb SH_SR_D) (.varb SH_SR_R))
      (VARGv (sh_get_banked_reg reg 1)) (VARGv (sh_get_banked_reg reg 0))

/-- The tree built by `sh_il_set_reg` (sh_il.c:138-149). -/
def sh_il_set_reg_ast (reg : Nat) (val : Option SHPure) : Option SHEffect :=
  if sh_valid_gpr reg = false then none
  else if sh_banked_reg reg = false then
    if reg = SH_REG_IND_SR then val.map sh_il_set_status_reg_ast
    else SETGv (some (sh_registers reg)) val
  else
    BRANCHv (.andb (.varb SH_SR_D) (.varb SH_SR_R))
      (SETGv (sh_get_banked_reg reg 1) val)
      (SETGv (sh_get_banked_reg reg 0) val)

/-- Evaluation environment for the pure fragment: bitvector globals carry a
width and a value, boolean globals a Bool; memory maps an address to the word
stored there. -/
structure ILEnv where
  vars : String → Nat × Nat
  bvars : String → Bool
  mem : Nat → Nat

mutual
/-- Evaluation of boolean-sorted trees. -/
def evalB : SHPureB → ILEnv → Bool
  | .varb n, env => env.bvars n
  | .andb a b, env => evalB a env && evalB b env
  | .nonZero a, env => (evalE a env).2 != 0

/-- Evaluation of bitvector-sorted trees to a (width, value) pair. -/
def evalE : SHPure → ILEnv → Nat × Nat
  | .bv w v, _ => (w, v % 2 ^ w)
  | .varg n, env => env.vars n
  | .iteb c a b, env => if evalB c env then evalE a env else evalE b env
  | .add a b, env =>
    let wx := evalE a env
    (wx.1, (wx.2 + (evalE b env).2) % 2 ^ wx.1)
  | .sub a b, env =>
    let wx := evalE a env
    (wx.1, (wx.2 + (2 ^ wx.1 - (evalE b env).2 % 2 ^ wx.1)) % 2 ^ wx.1)
  | .mul a b, env =>
    let wx := evalE a env
    (wx.1, (wx.2 * (evalE b env).2) % 2 ^ wx.1)
  | .logand a b, env =>
    let wx := evalE a env
    (wx.1, wx.2 &&& (evalE b env).2)
  | .logor a b, env =>
    let wx := evalE a env
    (wx.1, (wx.2 ||| (evalE b env).2) % 2 ^ wx.1)
  | .shiftl a b, env =>
    let wx := evalE a env
    (wx.1, (wx.2 <<< (evalE b env).2) % 2 ^ wx.1)
  | .shiftr a b, env =>
    let wx := evalE a env
    (wx.1, wx.2 >>> (evalE b env).2)
  | .unsigned w a, env => (w, (evalE a env).2 % 2 ^ w)
  | .signed w a, env =>
    let wx := evalE a env
    (w, signExt wx.1 w wx.2)
  | .loadw w addr, env => (w, env.mem ((evalE addr env).2) % 2 ^ w)
end

/-! ### Operand resolver (sh_il_get_effective_addr_pc / sh_il_get_param_pc /
sh_il_set_param_pc, sh_il.c:157-309) -/

inductive SHScaling where
  | invalid
  | b
  | w
  | l
deriving DecidableEq

/-- Modelled from the spec: the `sh_scaling_size` table of the missing decoder
headers; byte/word/longword scale by 1/2/4 (the INVALID entry is never used by
the functions under proof). -/
def sh_scaling_size : SHScaling → Nat
  | .invalid => 0
  | .b => 1
  | .w => 2
  | .l => 4

inductive SHAddrMode where
  | reg_direct
  | reg_indirect
  | reg_indirect_i
  | reg_indirect_d
  | reg_indirect_disp
  | reg_indirect_indexed
  | gbr_indirect_disp
  | gbr_indirect_indexed
  | pc_relative_disp
  | pc_relative8
  | pc_relative12
  | pc_relative_reg
  | imm_u
  | imm_s
deriving DecidableEq

structure SHParam where
  mode : SHAddrMode
  p0 : Nat
  p1 : Nat

/-- The tree built by `sh_il_get_effective_addr_pc` (sh_il.c:157-197);
`none` for the modes without an effective address (the warning default). -/
def sh_il_get_effective_addr_pc (param : SHParam) (scaling : SHScaling) (pc : Nat) :
    Option SHPure :=
  match param.mode with
  | .reg_indirect | .reg_indirect_i | .reg_indirect_d => sh_il_get_reg_ast param.p0
  | .reg_indirect_disp =>
    pmap2 .add (sh_il_get_reg_ast param.p0)
      (some (.mul (.bv 32 param.p1) (.bv 32 (sh_scaling_size scaling))))
  | .reg_indirect_indexed =>
    pmap2 .add (sh_il_get_reg_ast SH_REG_IND_R0) (sh_il_get_reg_ast param.p0)
  | .gbr_indirect_disp =>
    some (.add (.varg "gbr") (.mul (.bv 32 param.p0) (.bv 32 (sh_scaling_size scaling))))
  | .gbr_indirect_indexed =>
    pmap2 .add (some (.varg "gbr")) (sh_il_get_reg_ast SH_REG_IND_R0)
  | .pc_relative_disp =>
    let pcbv := SHPure.bv 32 pc
    let pcbv := if scaling = .l then SHPure.logand pcbv (.bv 32 0xfffffffc) else pcbv
    let pcbv := SHPure.add pcbv (.bv 32 4)
    some (.add pcbv (.mul (.bv 32 param.p0) (.bv 32 (sh_scaling_size scaling))))
  | .pc_relative8 =>
    some (.add (.add (.bv 32 pc) (.bv 32 4)) (.signed 32 (.shiftl (.bv 8 param.p0) (.bv 8 1))))
  | .pc_relative12 =>
    some (.add (.add (.bv 32 pc) (.bv 32 4)) (.signed 32 (.shiftl (.bv 12 param.p0) (.bv 8 1))))
  | .pc_relative_reg =>
    pmap2 .add (some (.add (.bv 32 pc) (.bv 32 4))) (sh_il_get_reg_ast param.p0)
  | _ => none

/-- The {pre, pure, post} triple built by the operand getter. -/
structure SHParamHelper where
  pre : Option SHEffect
  pure : Option SHPure
  post : Option SHEffect

/-- The triple built by `sh_il_get_param_pc` (sh_il.c:201-244). -/
def sh_il_get_param_pc (param : SHParam) (scaling : SHScaling) (pc : Nat) : SHParamHelper :=
  match param.mode with
  | .reg_direct =>
    { pre := none,
      pure :=
        if scaling = .invalid ∨ scaling = .l then sh_il_get_reg_ast param.p0
        else (sh_il_get_reg_ast param.p0).map (.unsigned (8 * sh_scaling_size scaling)),
      post := none }
  | .reg_indirect_i =>
    { pre := none,
      pure := (sh_il_get_effective_addr_pc param scaling pc).map
        (.loadw (8 * sh_scaling_size scaling)),
      post := sh_il_set_reg_ast param.p0
        (pmap2 .add (sh_il_get_reg_ast param.p0) (some (.bv 32 (sh_scaling_size scaling)))) }
  | .reg_indirect_d =>
    { pre := sh_il_set_reg_ast param.p0
        (pmap2 .sub (sh_il_get_reg_ast param.p0) (some (.bv 32 (sh_scaling_size scaling)))),
      pure := (sh_il_get_effective_addr_pc param scaling pc).map
        (.loadw (8 * sh_scaling_size scaling)),
      post := none }
  | .reg_indirect | .reg_indirect_disp | .reg_indirect_indexed | .gbr_indirect_disp
  | .gbr_indirect_indexed | .pc_relative_disp | .pc_relative8 | .pc_relative12
  | .pc_relative_reg =>
    { pre := none,
      pure := (sh_il_get_effective_addr_pc param scaling pc).map
        (.loadw (8 * sh_scaling_size scaling)),
      post := none }
  | .imm_u => { pre := none, pure := some (.bv 32 param.p0), post := none }
  | .imm_s => { pre := none, pure := some (.bv 32 param.p0), post := none }

/-- `sh_apply_effects` (sh_il.c:248-268). -/
def sh_apply_effects (target pre post : Option SHEffect) : Option SHEffect :=
  match target with
  | none =>
    match pre with
    | some p =>
      match post with
      | some q => some (.seq p q)
      | none => some p
    | none => post
  | some t =>
    let t2 := match pre with
      | some p => SHEffect.seq p t
      | none => t
    match post with
    | some q => some (.seq t2 q)
    | none => some t2

/-- The tree built by `sh_il_set_param_pc` (sh_il.c:270-309): register-direct
writes go through `sh_il_set_reg` (sign-extending when the scaling is not
invalid/longword); immediates log a configuration error and return `NULL`;
everything else (and a failed register write) becomes a store at the
effective address, wrapped in the operand's pre/post effects. -/
def sh_il_set_param_pc (param : SHParam) (val : Option SHPure) (scaling : SHScaling)
    (pc : Nat) : Option SHEffect :=
  let ret : Option SHEffect :=
    match param.mode with
    | .reg_direct =>
      if scaling = .invalid ∨ scaling = .l then sh_il_set_reg_ast param.p0 val
      else sh_il_set_reg_ast param.p0 (val.map (.signed 32))
    | _ => none
  match param.mode with
  | .imm_u | .imm_s => none
  | _ =>
    match ret with
    | some r => sh_apply_effects (some r) none none
    | none =>
      let ret_h := sh_il_get_param_pc param scaling pc
      let eff_addr := sh_il_get_effective_addr_pc param scaling pc
      sh_apply_effects (STOREWv eff_addr val) ret_h.pre ret_h.post

/-- The (effect, event log) pair produced by `sh_il_ldc` (sh_il.c:1286-1309):
the privilege bit is evaluated concretely at lift time; user mode together
with a non-GBR destination appends a reserved-instruction fault event and
yields no effect; otherwise the register form writes the bank-1 register or
goes through the operand setter, the longword form additionally sequences the
post-increment, and any other scaling yields a NOP. -/
def sh_il_ldc (priv : Bool) (p0 p1 : SHParam) (scaling : SHScaling) (pc : Nat) :
    Option SHEffect × List String :=
  let state := (if priv = false then 1 else 0) + (if p1.p0 ≠ SH_REG_IND_GBR then 2 else 0)
  if state = 3 then (none, ["SuperH: RESINST"])
  else if scaling = .invalid then
    (if sh_valid_gpr p1.p0 then
      SETGv (sh_get_banked_reg p1.p0 1) (sh_il_get_param_pc p0 scaling pc).pure
    else
      sh_il_set_param_pc p1 (sh_il_get_param_pc p0 scaling pc).pure scaling pc, [])
  else if scaling = .l then
    let rm := sh_il_get_param_pc p0 scaling pc
    (if sh_valid_gpr p1.p0 then
      SEQ2v (SETGv (sh_get_banked_reg p1.p0 1) rm.pure) rm.post
    else
      SEQ2v (sh_il_set_param_pc p1 rm.pure scaling pc) rm.post, [])
  else (some .nop, [])

/-- C8: calling the operand setter on a signed or unsigned immediate operand
produces no effect at all (`NULL`, the configuration-error signal): no store
and no register write is emitted, for every value and every scaling. -/
theorem c8_set_param_imm (i0 i1 : Nat) (val : Option SHPure) (scaling : SHScaling)
    (pc : Nat) :
    sh_il_set_param_pc ⟨.imm_u, i0, i1⟩ val scaling pc = none
  ∧ sh_il_set_param_pc ⟨.imm_s, i0, i1⟩ val scaling pc = none :=
  ⟨rfl, rfl⟩

/-- C9: general-register access through the lifter: for r0-r7 both the read
and the write are a conditional on MD ∧ RB selecting the bank-1 variable in
the true branch and the bank-0 variable otherwise (and the read evaluates
accordingly); for r8-r15 the access names only the flat register variable and
its evaluation is independent of the bank bits. -/
theorem c9_banked_reg_access (reg : Nat) (v : SHPure) :
    (reg < 8 →
      (sh_il_get_reg_ast reg
          = some (.iteb (.andb (.varb SH_SR_D) (.varb SH_SR_R))
              (.varg (sh_global_registers.getD (reg + 8) ""))
              (.varg (sh_global_registers.getD reg "")))
        ∧ sh_il_set_reg_ast reg (some v)
          = some (.branch (.andb (.varb SH_SR_D) (.varb SH_SR_R))
              (.setg (sh_global_registers.getD (reg + 8) "") v)
              (.setg (sh_global_registers.getD reg "") v))
        ∧ ∀ env : ILEnv,
            (sh_il_get_reg_ast reg).map (fun e => evalE e env)
              = some (if env.bvars SH_SR_D && env.bvars SH_SR_R
                  then env.vars (sh_global_registers.getD (reg + 8) "")
                  else env.vars (sh_global_registers.getD reg ""))))
  ∧ (8 ≤ reg → reg < 16 →
      (sh_il_get_reg_ast reg = some (.varg (sh_registers reg))
        ∧ sh_il_set_reg_ast reg (some v) = some (.setg (sh_registers reg) v)
        ∧ ∀ env env' : ILEnv, env.vars = env'.vars →
            (sh_il_get_reg_ast reg).map (fun e => evalE e env)
              = (sh_il_get_reg_ast reg).map (fun e => evalE e env'))) := by
  constructor
  · intro h8
    have h16 : reg < 16 := by omega
    have hget : sh_il_get_reg_ast reg
        = some (.iteb (.andb (.varb SH_SR_D) (.varb SH_SR_R))
            (.varg (sh_global_registers.getD (reg + 8) ""))
            (.varg (sh_global_registers.getD reg ""))) := by
      simp [sh_il_get_reg_ast, sh_valid_gpr, sh_banked_reg, SH_GPR_COUNT,
        SH_BANKED_REG_COUNT, sh_get_banked_reg, ITEv, VARGv, pmap2, h16, h8]
    have hset : sh_il_set_reg_ast reg (some v)
        = some (.branch (.andb (.varb SH_SR_D) (.varb SH_SR_R))
            (.setg (sh_global_registers.getD (reg + 8) "") v)
            (.setg (sh_global_registers.getD reg "") v)) := by
      simp [sh_il_set_reg_ast, sh_valid_gpr, sh_banked_reg, SH_GPR_COUNT,
        SH_BANKED_REG_COUNT, sh_get_banked_reg, SETGv, BRANCHv, h16, h8]
    refine ⟨hget, hset, ?_⟩
    intro env
    rw [hget]
    simp [evalE, evalB]
  · intro h8 h16
    have hnb : ¬ reg < 8 := by omega
    have hsr : reg ≠ SH_REG_IND_SR := by
      simp only [SH_REG_IND_SR]
      omega
    have hget : sh_il_get_reg_ast reg = some (.varg (sh_registers reg)) := by
      simp [sh_il_get_reg_ast, sh_valid_gpr, sh_banked_reg, SH_GPR_COUNT,
        SH_BANKED_REG_COUNT, h16, hnb, hsr]
    have hset : sh_il_set_reg_ast reg (some v) = some (.setg (sh_registers reg) v) := by
      simp [sh_il_set_reg_ast, sh_valid_gpr, sh_banked_reg, SH_GPR_COUNT,
        SH_BANKED_REG_COUNT, SETGv, h16, hnb, hsr]
    refine ⟨hget, hset, ?_⟩
    intro env env' hv
    rw [hget]
    simp [evalE, hv]

/-- C9 witness: at r0 the read is the conditional on MD ∧ RB between the
bank-1 and bank-0 variables. -/
theorem c9_banked_reg_access_witness :
    sh_il_get_reg_ast 0 = some (.iteb (.andb (.varb SH_SR_D) (.varb SH_SR_R))
        (.varg (sh_global_registers.getD 8 "")) (.varg (sh_global_registers.getD 0 ""))) :=
  ((c9_banked_reg_access 0 (.bv 32 5)).1 (by norm_num)).1

theorem sh_il_get_reg_ast_isSome (m : Nat) (hm : m < 16) :
    (sh_il_get_reg_ast m).isSome = true := by
  rcases Nat.lt_or_ge m 8 with h | h
  · simp [sh_il_get_reg_ast, sh_valid_gpr, sh_banked_reg, SH_GPR_COUNT,
      SH_BANKED_REG_COUNT, sh_get_banked_reg, ITEv, VARGv, pmap2, hm, h]
  · have hnb : ¬ m < 8 := by omega
    have hsr : m ≠ SH_REG_IND_SR := by
      simp only [SH_REG_IND_SR]
      omega
    simp [sh_il_get_reg_ast, sh_valid_gpr, sh_banked_reg, SH_GPR_COUNT,
      SH_BANKED_REG_COUNT, hm, hnb, hsr]

/-- C7 (counterexample): for `LDC Rm, GBR` (register form, any mode — here the
privileged one) no fault event is raised, yet no effect is produced either:
the GBR destination goes through the operand setter, whose register write is
rejected (GBR is not a valid GPR index) and whose memory fallback has no
effective address, so the lift returns `NULL`, contradicting the claim that a
normal effect is produced. -/
theorem c7_ldc_counterexample :
    (sh_il_ldc true ⟨.reg_direct, 0, 0⟩ ⟨.reg_direct, SH_REG_IND_GBR, 0⟩ .invalid 0).1 = none
  ∧ (sh_il_ldc true ⟨.reg_direct, 0, 0⟩ ⟨.reg_direct, SH_REG_IND_GBR, 0⟩ .invalid 0).2 = [] :=
  ⟨rfl, rfl⟩

theorem sh_il_set_reg_ast_isSome (m : Nat) (v : SHPure) (hm : m < 16) :
    (sh_il_set_reg_ast m (some v)).isSome = true := by
  rcases Nat.lt_or_ge m 8 with h | h
  · simp [sh_il_set_reg_ast, sh_valid_gpr, sh_banked_reg, SH_GPR_COUNT,
      SH_BANKED_REG_COUNT, sh_get_banked_reg, SETGv, BRANCHv, hm, h]
  · have hnb : ¬ m < 8 := by omega
    have hsr : m ≠ SH_REG_IND_SR := by
      simp only [SH_REG_IND_SR]
      omega
    simp [sh_il_set_reg_ast, sh_valid_gpr, sh_banked_reg, SH_GPR_COUNT,
      SH_BANKED_REG_COUNT, SETGv, hm, hnb, hsr]

/-- C7 (amended): for every LDC lift — the event log and the absence of the
effect under the gate hold for every source operand and scaling, and the
effect-presence is settled for both decoder forms, the register form
`LDC Rm, REG` (scaling invalid, register-direct source) and the longword form
`LDC.L @Rm+, REG` (scaling L, post-increment source) — the
reserved-instruction fault event is appended and the effect absent exactly
when the privilege bit concretely evaluates to 0 and the destination is not
GBR; when the privilege bit is 1 or the destination is GBR no event is
raised, and both forms produce an effect exactly when the destination is a
banked general register (index < 8): GBR and the other control destinations
yield an absent effect through the invalid-register paths. -/
theorem c7_ldc_amended (priv : Bool) (m n : Nat) (hm : m < 16) (pc : Nat) :
    (∀ (p0 : SHParam) (scaling : SHScaling),
      ((sh_il_ldc priv p0 ⟨.reg_direct, n, 0⟩ scaling pc).2
          = if priv = false ∧ n ≠ SH_REG_IND_GBR then ["SuperH: RESINST"] else [])
      ∧ (priv = false ∧ n ≠ SH_REG_IND_GBR →
          (sh_il_ldc priv p0 ⟨.reg_direct, n, 0⟩ scaling pc).1 = none))
  ∧ (¬(priv = false ∧ n ≠ SH_REG_IND_GBR) →
      ((sh_il_ldc priv ⟨.reg_direct, m, 0⟩ ⟨.reg_direct, n, 0⟩ .invalid pc).1.isSome = true
          ↔ n < 8)
      ∧ ((sh_il_ldc priv ⟨.reg_indirect_i, m, 0⟩ ⟨.reg_direct, n, 0⟩ .l pc).1.isSome = true
          ↔ n < 8)) := by
  by_cases hg : priv = false ∧ n ≠ SH_REG_IND_GBR
  · have hs : ((if priv = false then 1 else 0)
        + (if n = SH_REG_IND_GBR then 0 else 2)) = 3 := by
      rw [if_pos hg.1, if_neg hg.2]
    refine ⟨fun p0 scaling => ⟨?_, fun _ => ?_⟩, fun hc => absurd hg hc⟩ <;>
      simp [sh_il_ldc, hs, hg]
  · have hs : ¬ ((if priv = false then 1 else 0)
        + (if n = SH_REG_IND_GBR then 0 else 2)) = 3 := by
      by_cases h1 : priv = false
      · have h2 : n = SH_REG_IND_GBR := by
          by_contra h2
          exact hg ⟨h1, h2⟩
        simp [h1, h2]
      · rcases eq_or_ne n SH_REG_IND_GBR with h2 | h2 <;> simp [h1, h2]
    refine ⟨fun p0 scaling => ⟨?_, fun hgg => absurd hgg hg⟩, fun _ => ?_⟩
    · cases scaling <;> simp [sh_il_ldc, hs, hg]
    · obtain ⟨e, he⟩ := Option.isSome_iff_exists.mp (sh_il_get_reg_ast_isSome m hm)
      obtain ⟨q, hq⟩ := Option.isSome_iff_exists.mp
        (sh_il_set_reg_ast_isSome m (.add e (.bv 32 4)) hm)
      rcases Nat.lt_or_ge n 8 with h8 | h8
      · have hval : sh_valid_gpr n = true := by
          simp only [sh_valid_gpr, SH_GPR_COUNT, decide_eq_true_eq]
          omega
        have hbank : sh_get_banked_reg n 1 = some (sh_global_registers.getD (n + 8) "") := by
          simp [sh_get_banked_reg, sh_banked_reg, SH_BANKED_REG_COUNT, h8]
        constructor
        · simp [sh_il_ldc, hs, hval, hbank, sh_il_get_param_pc, SETGv, he, h8]
        · simp [sh_il_ldc, hs, hval, hbank, sh_il_get_param_pc,
            sh_il_get_effective_addr_pc, sh_scaling_size, pmap2, SETGv, SEQ2v,
            he, hq, h8]
      · have hval8 : ¬ n < 8 := by omega
        rcases Nat.lt_or_ge n 16 with h16 | h16
        · have hval : sh_valid_gpr n = true := by
            simp only [sh_valid_gpr, SH_GPR_COUNT, decide_eq_true_eq]
            omega
          have hbank : sh_get_banked_reg n 1 = none := by
            have hcond : sh_banked_reg n = false := by
              simp only [sh_banked_reg, SH_BANKED_REG_COUNT, decide_eq_false_iff_not]
              omega
            simp [sh_get_banked_reg, hcond]
          constructor
          · simp [sh_il_ldc, hs, hval, hbank, SETGv, hval8]
          · simp [sh_il_ldc, hs, hval, hbank, sh_il_get_param_pc,
              sh_il_get_effective_addr_pc, sh_scaling_size, pmap2, SETGv, SEQ2v,
              he, hq, hval8]
        · have hval : sh_valid_gpr n = false := by
            simp only [sh_valid_gpr, SH_GPR_COUNT, decide_eq_false_iff_not]
            omega
          have hsetn : ∀ w : Option SHPure, sh_il_set_reg_ast n w = none := by
            intro w
            simp [sh_il_set_reg_ast, hval]
          constructor
          · simp [sh_il_ldc, hs, hval, sh_il_set_param_pc, hsetn,
              sh_il_get_param_pc, sh_il_get_effective_addr_pc, STOREWv,
              sh_apply_effects, hval8]
          · simp [sh_il_ldc, hs, hval, sh_il_set_param_pc, hsetn,
              sh_il_get_param_pc, sh_il_get_effective_addr_pc, sh_scaling_size,
              STOREWv, sh_apply_effects, pmap2, SETGv, SEQ2v, he, hq, hval8]

/-- C7 witness: in privileged mode the register form `LDC Rm, R2_BANK` and the
longword form `LDC.L @Rm+, R2_BANK` both raise no event and produce an
effect. -/
theorem c7_ldc_amended_witness :
    ((sh_il_ldc true ⟨.reg_direct, 1, 0⟩ ⟨.reg_direct, 2, 0⟩ .invalid 0).1.isSome = true)
  ∧ ((sh_il_ldc true ⟨.reg_indirect_i, 1, 0⟩ ⟨.reg_direct, 2, 0⟩ .l 0).1.isSome = true) :=
  ⟨((c7_ldc_amended true 1 2 (by norm_num) 0).2 (by simp)).1.mpr (by norm_num),
   ((c7_ldc_amended true 1 2 (by norm_num) 0).2 (by simp)).2.mpr (by norm_num)⟩
